import Mathlib

/-!
Verification of the income-aggregation, ranking, bulk-import and reporting
logic of the service-tracker suite.

The embedding follows the source closely:

* A JavaScript `Map` is modelled as an association list `List (String × β)`
  in insertion order; `Map.get`/`Map.set` become `getV`/`setV`, and the
  ubiquitous `const cur = map.get(k) || dflt; map.set(k, f cur)` pattern
  becomes `stepUpd`.
* `Array.prototype.sort` with a comparator is a stable sort (ECMA-262); a
  stable sort with a fixed total-preorder comparator has a unique result,
  so it is modelled by the structurally recursive `List.insertionSort`,
  which is stable.
* JavaScript numbers carrying integral currency amounts (`nett_gp` is a
  `bigint` column) are modelled as `Int`; the one genuinely fractional
  value, the achievement percentage, is modelled in `ℚ`.
-/

namespace ServiceTracker

/-- A project row as read from the `projects` table (the columns the pages
use).  `product` and `keterangan` are nullable in the schema, hence
`Option String`; `pic` is `NOT NULL text`, hence `String` (which may still
be empty). -/
structure ProjectRecord where
  pid : String
  businessPartner : String
  endUser : String
  category : String
  product : Option String
  pic : String
  nettGp : Int
  quarter : String
  year : Int
  keterangan : Option String
deriving DecidableEq, Repr

/-- A row of the `targets` table. -/
structure TargetRecord where
  year : Int
  q1Target : Int
  q2Target : Int
  q3Target : Int
  q4Target : Int
  yearlyTarget : Int
deriving DecidableEq, Repr

/-- `projects.reduce((sum, p) => sum + Number(p.nett_gp), 0)`. -/
def sumNett (rs : List ProjectRecord) : Int :=
  (rs.map (fun p => p.nettGp)).sum

/-! ### Association lists modelling JavaScript `Map` -/

/-- `Map.get k`: first entry with key `k`, if any. -/
def getV {β : Type} (k : String) : List (String × β) → Option β
  | [] => none
  | (k', b) :: m => if k = k' then some b else getV k m

/-- `Map.set k b`: overwrite the entry for `k` in place, or append a new
entry at the end (JS `Map` preserves insertion order). -/
def setV {β : Type} (k : String) (b : β) : List (String × β) → List (String × β)
  | [] => [(k, b)]
  | (k', b') :: m => if k = k' then (k, b) :: m else (k', b') :: setV k b m

/-- The `const cur = map.get(k) || dflt; map.set(k, f cur)` pattern. -/
def stepUpd {β : Type} (d : β) (k : String) (f : β → β)
    (m : List (String × β)) : List (String × β) :=
  setV k (f ((getV k m).getD d)) m

/-- `Map.get k` with the default applied, as in the source pattern. -/
def getVD {β : Type} (d : β) (k : String) (m : List (String × β)) : β :=
  (getV k m).getD d

/-- The keys of the map, in insertion order. -/
def keysOf {β : Type} (m : List (String × β)) : List String :=
  m.map Prod.fst

theorem getV_setV_self {β : Type} (k : String) (b : β) (m : List (String × β)) :
    getV k (setV k b m) = some b := by
  induction m with
  | nil => simp [getV, setV]
  | cons e m ih =>
    obtain ⟨k', b'⟩ := e
    by_cases h : k = k'
    · simp [getV, setV, h]
    · simp [getV, setV, h, ih]

theorem getV_setV_ne {β : Type} {k k' : String} (h : k ≠ k') (b : β)
    (m : List (String × β)) : getV k (setV k' b m) = getV k m := by
  induction m with
  | nil => simp [getV, setV, h]
  | cons e m ih =>
    obtain ⟨k'', b''⟩ := e
    by_cases h' : k' = k''
    · subst h'
      simp [getV, setV, h]
    · by_cases h'' : k = k''
      · simp [getV, setV, h', h'']
      · simp [getV, setV, h', h'', ih]

theorem stepUpd_nil {β : Type} (d : β) (k : String) (f : β → β) :
    stepUpd d k f [] = [(k, f d)] := by
  simp [stepUpd, getV, setV]

theorem stepUpd_cons_eq {β : Type} (d : β) (k : String) (f : β → β) (b : β)
    (m : List (String × β)) :
    stepUpd d k f ((k, b) :: m) = (k, f b) :: m := by
  simp [stepUpd, getV, setV]

theorem stepUpd_cons_ne {β : Type} (d : β) {k k' : String} (h : k ≠ k')
    (f : β → β) (b : β) (m : List (String × β)) :
    stepUpd d k f ((k', b) :: m) = (k', b) :: stepUpd d k f m := by
  simp [stepUpd, getV, setV, h, Ne.symm h]

theorem getVD_stepUpd_eq {β : Type} (d : β) (k : String) (f : β → β)
    (m : List (String × β)) :
    getVD d k (stepUpd d k f m) = f (getVD d k m) := by
  simp [getVD, stepUpd, getV_setV_self]

theorem getVD_stepUpd_ne {β : Type} (d : β) {k k' : String} (h : k ≠ k')
    (f : β → β) (m : List (String × β)) :
    getVD d k (stepUpd d k' f m) = getVD d k m := by
  simp [getVD, stepUpd, getV_setV_ne h]

theorem keysOf_stepUpd {β : Type} (d : β) (k : String) (f : β → β)
    (m : List (String × β)) :
    keysOf (stepUpd d k f m) =
      if k ∈ keysOf m then keysOf m else keysOf m ++ [k] := by
  induction m with
  | nil => simp [keysOf, stepUpd_nil]
  | cons e m ih =>
    obtain ⟨k', b'⟩ := e
    by_cases h : k = k'
    · subst h
      simp [stepUpd_cons_eq, keysOf]
    · rw [stepUpd_cons_ne d h]
      simp only [keysOf, List.map_cons, List.mem_cons]
      simp only [keysOf] at ih
      rw [ih]
      by_cases hm : k ∈ m.map Prod.fst
      · simp [h, hm]
      · simp [h, hm]

theorem nodup_keysOf_stepUpd {β : Type} (d : β) (k : String) (f : β → β)
    {m : List (String × β)} (hm : (keysOf m).Nodup) :
    (keysOf (stepUpd d k f m)).Nodup := by
  rw [keysOf_stepUpd]
  by_cases h : k ∈ keysOf m
  · simpa [h]
  · simpa [h, List.nodup_append] using hm

theorem mem_keysOf_stepUpd {β : Type} (d : β) (k k' : String) (f : β → β)
    (m : List (String × β)) :
    k' ∈ keysOf (stepUpd d k f m) ↔ k' ∈ keysOf m ∨ k' = k := by
  rw [keysOf_stepUpd]
  by_cases h : k ∈ keysOf m
  · simp only [if_pos h]
    constructor
    · exact Or.inl
    · rintro (hk | rfl)
      · exact hk
      · exact h
  · simp [if_neg h]

theorem getV_of_mem {β : Type} {k : String} {b : β} {m : List (String × β)}
    (hn : (keysOf m).Nodup) (hm : (k, b) ∈ m) : getV k m = some b := by
  induction m with
  | nil => cases hm
  | cons e m ih =>
    obtain ⟨k', b'⟩ := e
    rcases List.mem_cons.mp hm with h | h
    · cases h
      simp [getV]
    · have hk : k ≠ k' := by
        rintro rfl
        simp only [keysOf, List.map_cons, List.nodup_cons] at hn
        exact hn.1 (List.mem_map.mpr ⟨(k, b), h, rfl⟩)
      simp only [keysOf, List.map_cons, List.nodup_cons] at hn
      simp [getV, hk, ih hn.2 h]

/-- The generic per-key characterisation of the `forEach`/`Map` grouping
loops: after folding all records, the bucket at key `k` is the fold of the
per-record update over exactly the records whose key is `k`. -/
theorem getVD_foldl {β : Type} {R : Type} (key : R → String) (f : R → β → β)
    (d : β) (rs : List R) (m : List (String × β)) (k : String) :
    getVD d k (rs.foldl (fun m r => stepUpd d (key r) (f r) m) m) =
      (rs.filter (fun r => decide (key r = k))).foldl (fun b r => f r b)
        (getVD d k m) := by
  induction rs generalizing m with
  | nil => simp
  | cons r rs ih =>
    by_cases h : key r = k
    · subst h
      simp only [List.foldl_cons, List.filter_cons]
      rw [ih, getVD_stepUpd_eq]
      simp
    · simp only [List.foldl_cons, List.filter_cons]
      rw [ih, getVD_stepUpd_ne d (fun hk => h hk.symm)]
      simp [h]

theorem nodup_keysOf_foldl {β : Type} {R : Type} (key : R → String)
    (f : R → β → β) (d : β) (rs : List R) {m : List (String × β)}
    (hm : (keysOf m).Nodup) :
    (keysOf (rs.foldl (fun m r => stepUpd d (key r) (f r) m) m)).Nodup := by
  induction rs generalizing m with
  | nil => exact hm
  | cons r rs ih => exact ih (nodup_keysOf_stepUpd d (key r) (f r) hm)

theorem mem_keysOf_foldl {β : Type} {R : Type} (key : R → String)
    (f : R → β → β) (d : β) (rs : List R) (m : List (String × β)) (k : String) :
    k ∈ keysOf (rs.foldl (fun m r => stepUpd d (key r) (f r) m) m) ↔
      k ∈ keysOf m ∨ k ∈ rs.map key := by
  induction rs generalizing m with
  | nil => simp
  | cons r rs ih =>
    simp only [List.foldl_cons, List.map_cons, List.mem_cons]
    rw [ih, mem_keysOf_stepUpd]
    tauto

theorem toFinset_keysOf_foldl {β : Type} {R : Type} (key : R → String)
    (f : R → β → β) (d : β) (rs : List R) (m : List (String × β)) :
    (keysOf (rs.foldl (fun m r => stepUpd d (key r) (f r) m) m)).toFinset =
      (keysOf m).toFinset ∪ (rs.map key).toFinset := by
  apply Finset.ext
  intro k
  simp [mem_keysOf_foldl]

/-- Summing a measure `μ` of the bucket values: one `stepUpd` with an update
that increases `μ` by `c` (and a default with `μ d = 0`) increases the total
by exactly `c`. -/
theorem sum_map_stepUpd {β M : Type} [AddCommMonoid M] (μ : β → M) (d : β)
    (k : String) (f : β → β) (c : M) (h0 : μ d = 0)
    (hf : ∀ b, μ (f b) = μ b + c) (m : List (String × β)) :
    ((stepUpd d k f m).map (fun e => μ e.2)).sum =
      (m.map (fun e => μ e.2)).sum + c := by
  induction m with
  | nil => simp [stepUpd_nil, h0, hf]
  | cons e m ih =>
    obtain ⟨k', b'⟩ := e
    by_cases h : k = k'
    · subst h
      simp [stepUpd_cons_eq, hf, add_right_comm]
    · rw [stepUpd_cons_ne d h]
      simp only [List.map_cons, List.sum_cons, ih]
      rw [add_assoc]

/-- Folding a whole record list: the bucket-measure total grows by the sum of
the per-record contributions. -/
theorem sum_map_foldl {β M R : Type} [AddCommMonoid M] (μ : β → M)
    (key : R → String) (f : R → β → β) (c : R → M) (d : β) (h0 : μ d = 0)
    (hf : ∀ r b, μ (f r b) = μ b + c r) (rs : List R)
    (m : List (String × β)) :
    ((rs.foldl (fun m r => stepUpd d (key r) (f r) m) m).map
        (fun e => μ e.2)).sum =
      (m.map (fun e => μ e.2)).sum + (rs.map c).sum := by
  induction rs generalizing m with
  | nil => simp
  | cons r rs ih =>
    simp only [List.foldl_cons, List.map_cons, List.sum_cons]
    rw [ih, sum_map_stepUpd μ d (key r) (f r) (c r) h0 (hf r)]
    simp [add_assoc, add_comm, add_left_comm]

/-! ### The Dashboard aggregation (`src/pages/Dashboard.tsx`,
`fetchDashboardData`) -/

/-- One entry of the quarterly breakdown chart. -/
structure QuarterEntry where
  quarter : String
  income : Int
  target : Int
deriving DecidableEq, Repr

/-- The `DashboardStats` record held in component state. -/
structure DashboardStats where
  totalIncome : Int
  target : Int
  achievement : ℚ
  gap : Int
  quarterlyData : List QuarterEntry
  categoryData : List (String × Int)
deriving DecidableEq, Repr

/-- `targetData?.[`q*_target`] || 0` for the four fixed quarter labels. -/
def qTargetOf (t : Option TargetRecord) (q : String) : Int :=
  match t with
  | none => 0
  | some td =>
    if q = "Q1" then td.q1Target
    else if q = "Q2" then td.q2Target
    else if q = "Q3" then td.q3Target
    else if q = "Q4" then td.q4Target
    else 0

/-- `targetData?.yearly_target || 0` (falsy `0` maps to `0`, so the `|| 0`
is the identity on present integer values). -/
def yearlyTargetOf (t : Option TargetRecord) : Int :=
  (t.map TargetRecord.yearlyTarget).getD 0

/-- The `categoryMap` loop of `fetchDashboardData`:
`categoryMap.set(p.category, (categoryMap.get(p.category) || 0) + p.nett_gp)`. -/
def categoryFold (rs : List ProjectRecord) : List (String × Int) :=
  rs.foldl (fun m p => stepUpd 0 p.category (fun v => v + p.nettGp) m) []

/-- The pure computation performed by `fetchDashboardData` on the fetched
`projects` and optional `targetData`. -/
def fetchDashboardData (projects : List ProjectRecord)
    (targetData : Option TargetRecord) : DashboardStats :=
  let totalIncome := sumNett projects
  let yearlyTarget := yearlyTargetOf targetData
  let achievement : ℚ :=
    if yearlyTarget > 0 then ((totalIncome : ℚ) / (yearlyTarget : ℚ)) * 100
    else 0
  let gap := yearlyTarget - totalIncome
  let quarterlyData := ["Q1", "Q2", "Q3", "Q4"].map (fun q =>
    { quarter := q
      income := sumNett (projects.filter (fun p => decide (p.quarter = q)))
      target := qTargetOf targetData q })
  let categoryData := categoryFold projects
  { totalIncome := totalIncome
    target := yearlyTarget
    achievement := achievement
    gap := gap
    quarterlyData := quarterlyData
    categoryData := categoryData }

/-! ### Rankings (`Dashboard.tsx` top PICs / top products, `TopPics.tsx`,
`TopProducts`) -/

/-- The `{ total, count }` bucket of the `picMap` / `productMap` loops. -/
structure Agg where
  total : Int
  count : Nat
deriving DecidableEq, Repr

/-- One output entry of a ranking: `{ pic | product, totalIncome,
projectCount }`. -/
structure Ranking where
  key : String
  totalIncome : Int
  projectCount : Nat
deriving DecidableEq, Repr

/-- `project.pic || 'N/A'` (Dashboard top-PICs loop): the empty string is
falsy in JavaScript, so it is replaced by the sentinel. -/
def dashPicKey (r : ProjectRecord) : String :=
  if r.pic = "" then "N/A" else r.pic

/-- `project.product || 'N/A'` (Dashboard top-products loop and
`TopProducts.fetchRankings`): both a missing (`null`) product and the empty
string are falsy and collapse to the sentinel. -/
def prodKey (r : ProjectRecord) : String :=
  match r.product with
  | none => "N/A"
  | some s => if s = "" then "N/A" else s

/-- `project.pic` as used by `TopPics.fetchRankings`: the raw column value,
with no sentinel normalisation. -/
def rawPicKey (r : ProjectRecord) : String :=
  r.pic

/-- The grouping loop shared by the three flat rankings:
`map.set(k, { total: cur.total + nett_gp, count: cur.count + 1 })`. -/
def groupAgg (key : ProjectRecord → String) (rs : List ProjectRecord) :
    List (String × Agg) :=
  rs.foldl
    (fun m r =>
      stepUpd ⟨0, 0⟩ (key r)
        (fun b => ⟨b.total + r.nettGp, b.count + 1⟩) m)
    []

/-- The descending-income comparator `(a, b) => b.totalIncome - a.totalIncome`
read as the ordering relation of the resulting stable sort. -/
def rankGe (a b : Ranking) : Prop :=
  b.totalIncome ≤ a.totalIncome

instance : DecidableRel rankGe := fun a b =>
  inferInstanceAs (Decidable (b.totalIncome ≤ a.totalIncome))

instance : IsTotal Ranking rankGe :=
  ⟨fun a b => Int.le_total b.totalIncome a.totalIncome⟩

instance : IsTrans Ranking rankGe :=
  ⟨fun _ _ _ h1 h2 => le_trans h2 h1⟩

/-- `Array.from(map.entries()).map(...).sort((a, b) => b.totalIncome -
a.totalIncome).slice(0, 5)` — a stable descending sort followed by
truncation to the top five. -/
def rankBy (key : ProjectRecord → String) (rs : List ProjectRecord) :
    List Ranking :=
  (List.insertionSort rankGe
      ((groupAgg key rs).map
        (fun e => ⟨e.1, e.2.total, e.2.count⟩))).take 5

/-- `topPicsArray` in `Dashboard.fetchDashboardData`. -/
def topPicsArray (rs : List ProjectRecord) : List Ranking :=
  rankBy dashPicKey rs

/-- `topProductsArray` in `Dashboard.fetchDashboardData`. -/
def topProductsArray (rs : List ProjectRecord) : List Ranking :=
  rankBy prodKey rs

/-- `rankingsArray` in `TopPics.fetchRankings` (raw `project.pic` key). -/
def topPicsRankings (rs : List ProjectRecord) : List Ranking :=
  rankBy rawPicKey rs

/-- Number of distinct grouping-key values occurring in the record list. -/
def distinctKeys (key : ProjectRecord → String) (rs : List ProjectRecord) :
    Nat :=
  ((rs.map key).toFinset).card

/-! ### Top products with nested per-PIC breakdown (`TopProducts`) -/

/-- One `{ pic, income }` entry of a product's contributor breakdown. -/
structure PicEntry where
  pic : String
  income : Int
deriving DecidableEq, Repr

/-- The bucket of `productMap`: `{ total, count, pics }`. -/
structure ProdBucket where
  total : Int
  count : Nat
  pics : List (String × Int)
deriving DecidableEq, Repr

/-- A top-level entry of the product ranking:
`{ product, totalIncome, projectCount, pics }`. -/
structure ProductRanking where
  product : String
  totalIncome : Int
  projectCount : Nat
  pics : List PicEntry
deriving DecidableEq, Repr

/-- `pics.set(pic, (pics.get(pic) || 0) + nett_gp)` — the nested per-PIC
accumulation (also the exact shape of the Dashboard `categoryMap` loop). -/
def bumpVal (p : String) (v : Int) (m : List (String × Int)) :
    List (String × Int) :=
  stepUpd 0 p (fun w => w + v) m

/-- One iteration of the `TopProducts.fetchRankings` grouping loop. -/
def prodStep (m : List (String × ProdBucket)) (r : ProjectRecord) :
    List (String × ProdBucket) :=
  stepUpd ⟨0, 0, []⟩ (prodKey r)
    (fun b => ⟨b.total + r.nettGp, b.count + 1, bumpVal r.pic r.nettGp b.pics⟩)
    m

/-- The fully grouped `productMap` of `TopProducts.fetchRankings`. -/
def groupProd (rs : List ProjectRecord) : List (String × ProdBucket) :=
  rs.foldl prodStep []

/-- The comparator `(a, b) => b.income - a.income` of the nested breakdown,
read as the ordering of the stable sort. -/
def picGe (a b : PicEntry) : Prop :=
  b.income ≤ a.income

instance : DecidableRel picGe := fun a b =>
  inferInstanceAs (Decidable (b.income ≤ a.income))

instance : IsTotal PicEntry picGe :=
  ⟨fun a b => Int.le_total b.income a.income⟩

instance : IsTrans PicEntry picGe :=
  ⟨fun _ _ _ h1 h2 => le_trans h2 h1⟩

/-- The comparator `(a, b) => b.totalIncome - a.totalIncome` on the
top-level product entries. -/
def prodGe (a b : ProductRanking) : Prop :=
  b.totalIncome ≤ a.totalIncome

instance : DecidableRel prodGe := fun a b =>
  inferInstanceAs (Decidable (b.totalIncome ≤ a.totalIncome))

instance : IsTotal ProductRanking prodGe :=
  ⟨fun a b => Int.le_total b.totalIncome a.totalIncome⟩

instance : IsTrans ProductRanking prodGe :=
  ⟨fun _ _ _ h1 h2 => le_trans h2 h1⟩

/-- `rankingsArray` of `TopProducts.fetchRankings`: map each product bucket
to an output entry whose `pics` breakdown is sorted descending by income,
sort the entries descending by total income, and keep the top five. -/
def topProductsRankings (rs : List ProjectRecord) : List ProductRanking :=
  (List.insertionSort prodGe
      ((groupProd rs).map (fun e =>
        { product := e.1
          totalIncome := e.2.total
          projectCount := e.2.count
          pics := List.insertionSort picGe
            (e.2.pics.map (fun p => PicEntry.mk p.1 p.2)) }))).take 5

/-- Grouping a record list by raw `pic`, summing `nett_gp` — the reference
form of the nested breakdown (the inner loop run on just one product's
records). -/
def picGroup (rs : List ProjectRecord) : List (String × Int) :=
  rs.foldl (fun ps r => bumpVal r.pic r.nettGp ps) []

/-! ### The Reports page filter (`Reports.applyFilters`) -/

/-- `applyFilters` of the Reports page: filter by exact year (string
comparison with the selected year), then by quarter unless "all", then by
category unless "all". -/
def applyFilters (projects : List ProjectRecord)
    (year quarter category : String) : List ProjectRecord :=
  let filtered := projects.filter (fun p => decide (toString p.year = year))
  let filtered :=
    if quarter ≠ "all" then
      filtered.filter (fun p => decide (p.quarter = quarter))
    else filtered
  let filtered :=
    if category ≠ "all" then
      filtered.filter (fun p => decide (p.category = category))
    else filtered
  filtered

/-- `totalIncome` of the Reports page:
`filteredProjects.reduce((sum, p) => sum + Number(p.nett_gp), 0)`. -/
def reportsTotalIncome (filteredProjects : List ProjectRecord) : Int :=
  sumNett filteredProjects

/-! ### Bulk import (`src/utils/excel-parser.ts`, `parseExcelFile`) -/

/-- A candidate row after the column-alias coercion
(`row.PID || row.pid || ""`, `parseFloat(...)`, `parseInt(...)`): every
field is already a string or a number when it reaches the zod schema. -/
structure RawRow where
  pid : String
  business_partner : String
  end_user : String
  category : String
  product : String
  pic : String
  nett_gp : Int
  quarter : String
  year : Int
  keterangan : String
deriving DecidableEq, Repr

/-- The validation messages of `projectSchema` for one row, in schema
order; the row is valid iff this list is empty.  (`product` and
`keterangan` are optional strings and never fail.) -/
def rowErrors (r : RawRow) : List String :=
  (if 1 ≤ r.pid.length then [] else ["PID is required"]) ++
  (if 2 ≤ r.business_partner.length then []
   else ["Business Partner is required"]) ++
  (if 2 ≤ r.end_user.length then [] else ["End User is required"]) ++
  (if r.category = "Implementation" ∨ r.category = "Maintenance" ∨
      r.category = "LSC" then []
   else ["Category must be Implementation, Maintenance, or LSC"]) ++
  (if 2 ≤ r.pic.length then [] else ["PIC is required"]) ++
  (if 0 < r.nett_gp then [] else ["Nett GP must be positive"]) ++
  (if r.quarter = "Q1" ∨ r.quarter = "Q2" ∨ r.quarter = "Q3" ∨
      r.quarter = "Q4" then []
   else ["Quarter must be Q1, Q2, Q3, or Q4"]) ++
  (if 2000 ≤ r.year ∧ r.year ≤ 2100 then []
   else ["Year must be between 2000 and 2100"])

/-- The error string pushed for an invalid row at 0-based sheet index `i`:
`Row ${index + 2}: ${messages.join(', ')}`. -/
def rowErrorMsg (i : Nat) (r : RawRow) : String :=
  "Row " ++ toString (i + 2) ++ ": " ++ String.intercalate ", " (rowErrors r)

/-- The `jsonData.forEach((row, index) => ...)` loop: collect the error
strings of invalid rows and the validated projects of valid rows, both in
sheet order, starting at 0-based index `i`. -/
def collectRows (i : Nat) : List RawRow → List String × List RawRow
  | [] => ([], [])
  | r :: rest =>
    let (es, vs) := collectRows (i + 1) rest
    if (rowErrors r).isEmpty then (es, r :: vs)
    else (rowErrorMsg i r :: es, vs)

/-- The `ParseResult` shape of `excel-parser.ts`. -/
structure ParseResult where
  success : Bool
  data : Option (List RawRow)
  errors : Option (List String)
deriving DecidableEq, Repr

/-- The pure core of `parseExcelFile`, applied to the rows extracted from
the first sheet. -/
def parseSheetRows (rows : List RawRow) : ParseResult :=
  let (errs, validProjects) := collectRows 0 rows
  if 0 < errs.length then
    { success := false, data := none, errors := some errs }
  else if validProjects.length = 0 then
    { success := false, data := none
      errors := some ["No valid data found in Excel file"] }
  else
    { success := true, data := some validProjects, errors := none }

/-! ### Server-side `pid` auto-assignment
(`supabase/migrations/...sql`, `generate_pid` / `set_project_pid`) -/

/-- A stored project row, reduced to the only column `generate_pid`
inspects: the year of `created_at`. -/
structure StoredProject where
  createdYear : Nat
deriving DecidableEq, Repr

/-- Postgres `LPAD(s, n, c)`: left-pad `s` with `c` up to length `n`,
truncating on the right when `s` is longer than `n`. -/
def lpad (s : String) (n : Nat) (c : Char) : String :=
  if n ≤ s.length then (s.toList.take n).asString
  else (List.replicate (n - s.length) c).asString ++ s

/-- `generate_pid()`: `'P' || TO_CHAR(NOW(), 'YY') ||
LPAD((count of projects created this year + 1)::text, 4, '0')`. -/
def generate_pid (currentYear : Nat) (store : List StoredProject) : String :=
  let year_suffix := lpad (toString (currentYear % 100)) 2 '0'
  let counter :=
    (store.filter (fun p => decide (p.createdYear = currentYear))).length + 1
  "P" ++ year_suffix ++ lpad (toString counter) 4 '0'

/-- The `set_project_pid` BEFORE INSERT trigger: replace a NULL or empty
`NEW.pid` with `generate_pid()`, keep any other value unchanged.  Returns
the `pid` the inserted row ends up with. -/
def set_project_pid (currentYear : Nat) (store : List StoredProject)
    (newPid : Option String) : String :=
  match newPid with
  | none => generate_pid currentYear store
  | some s => if s = "" then generate_pid currentYear store else s

/-! ### Basic aggregation lemmas -/

theorem sumNett_nil : sumNett [] = 0 := rfl

theorem sumNett_cons (p : ProjectRecord) (l : List ProjectRecord) :
    sumNett (p :: l) = p.nettGp + sumNett l := by
  simp [sumNett]

/-- The category fold distributes the whole income: the values of the
category map sum to the total income. -/
theorem categoryFold_sum (ps : List ProjectRecord) :
    ((categoryFold ps).map (fun e => e.2)).sum = sumNett ps := by
  have h := sum_map_foldl (fun v : Int => v)
    (fun p : ProjectRecord => p.category) (fun p v => v + p.nettGp)
    (fun p : ProjectRecord => p.nettGp) 0 rfl (fun _ _ => rfl) ps []
  simpa [categoryFold, sumNett] using h

/-- When every record names one of the four quarters, the four quarterly
filters partition the list, so their incomes sum to the total. -/
theorem sumNett_quarter_partition (ps : List ProjectRecord)
    (h : ∀ p ∈ ps, p.quarter = "Q1" ∨ p.quarter = "Q2" ∨
      p.quarter = "Q3" ∨ p.quarter = "Q4") :
    sumNett (ps.filter (fun p => decide (p.quarter = "Q1"))) +
      sumNett (ps.filter (fun p => decide (p.quarter = "Q2"))) +
      sumNett (ps.filter (fun p => decide (p.quarter = "Q3"))) +
      sumNett (ps.filter (fun p => decide (p.quarter = "Q4"))) =
      sumNett ps := by
  induction ps with
  | nil => simp [sumNett]
  | cons p ps ih =>
    have hrest := ih (fun q hq => h q (List.mem_cons_of_mem p hq))
    rcases h p (List.mem_cons_self p ps) with h1 | h1 | h1 | h1 <;>
    · simp only [List.filter_cons, h1]
      simp [sumNett_cons]
      omega

/-- C1: for every record list and every target value, the computed
dashboard statistics satisfy `achievementPercent = totalIncome/target*100`
when `target > 0` and `achievementPercent = 0` when `target = 0`
(regardless of `totalIncome`), and `gap = target - totalIncome` exactly,
including negative gap when `totalIncome > target`. -/
theorem achievement_gap_invariant (projects : List ProjectRecord)
    (targetData : Option TargetRecord) :
    (0 < (fetchDashboardData projects targetData).target →
      (fetchDashboardData projects targetData).achievement =
        ((fetchDashboardData projects targetData).totalIncome : ℚ) /
          ((fetchDashboardData projects targetData).target : ℚ) * 100) ∧
    ((fetchDashboardData projects targetData).target = 0 →
      (fetchDashboardData projects targetData).achievement = 0) ∧
    (fetchDashboardData projects targetData).gap =
      (fetchDashboardData projects targetData).target -
        (fetchDashboardData projects targetData).totalIncome := by
  refine ⟨fun h => ?_, fun h => ?_, rfl⟩
  · simp only [fetchDashboardData] at h ⊢
    rw [if_pos h]
  · simp only [fetchDashboardData] at h ⊢
    rw [if_neg (by omega)]

/-- Witness for C1 at a concrete input: one 300-income record against a
positive 200 yearly target gives `achievement = 150` and `gap = -100`. -/
theorem achievement_gap_invariant_check :
    0 < (fetchDashboardData
          [⟨"P250001", "BP", "EU", "Implementation", some "NetApp", "X",
            300, "Q1", 2025, none⟩]
          (some ⟨2025, 200, 0, 0, 0, 200⟩)).target ∧
    (fetchDashboardData
          [⟨"P250001", "BP", "EU", "Implementation", some "NetApp", "X",
            300, "Q1", 2025, none⟩]
          (some ⟨2025, 200, 0, 0, 0, 200⟩)).achievement =
      ((fetchDashboardData
          [⟨"P250001", "BP", "EU", "Implementation", some "NetApp", "X",
            300, "Q1", 2025, none⟩]
          (some ⟨2025, 200, 0, 0, 0, 200⟩)).totalIncome : ℚ) /
        ((fetchDashboardData
          [⟨"P250001", "BP", "EU", "Implementation", some "NetApp", "X",
            300, "Q1", 2025, none⟩]
          (some ⟨2025, 200, 0, 0, 0, 200⟩)).target : ℚ) * 100 ∧
    (fetchDashboardData
          [⟨"P250001", "BP", "EU", "Implementation", some "NetApp", "X",
            300, "Q1", 2025, none⟩]
          (some ⟨2025, 200, 0, 0, 0, 200⟩)).gap =
      (fetchDashboardData
          [⟨"P250001", "BP", "EU", "Implementation", some "NetApp", "X",
            300, "Q1", 2025, none⟩]
          (some ⟨2025, 200, 0, 0, 0, 200⟩)).target -
        (fetchDashboardData
          [⟨"P250001", "BP", "EU", "Implementation", some "NetApp", "X",
            300, "Q1", 2025, none⟩]
          (some ⟨2025, 200, 0, 0, 0, 200⟩)).totalIncome :=
  ⟨by decide,
   (achievement_gap_invariant _ _).1 (by decide),
   (achievement_gap_invariant _ _).2.2⟩

/-- C2: for every record list in which each record's quarter is one of
Q1..Q4, the four quarterly breakdown incomes sum to `totalIncome`, and the
category breakdown values sum to `totalIncome`; every record contributes to
exactly one quarter bucket and exactly one category bucket. -/
theorem breakdowns_partition (ps : List ProjectRecord)
    (t : Option TargetRecord)
    (h : ∀ p ∈ ps, p.quarter = "Q1" ∨ p.quarter = "Q2" ∨
      p.quarter = "Q3" ∨ p.quarter = "Q4") :
    ((fetchDashboardData ps t).quarterlyData.map (fun e => e.income)).sum =
      (fetchDashboardData ps t).totalIncome ∧
    ((fetchDashboardData ps t).categoryData.map (fun e => e.2)).sum =
      (fetchDashboardData ps t).totalIncome := by
  constructor
  · have hq := sumNett_quarter_partition ps h
    simp only [fetchDashboardData, List.map_cons, List.map_nil,
      List.sum_cons, List.sum_nil]
    omega
  · simpa only [fetchDashboardData] using categoryFold_sum ps

/-- Witness for C2: two Q1 records with incomes 100 and 200 in different
categories; both breakdowns sum to 300. -/
theorem breakdowns_partition_check :
    (∀ p ∈ [(⟨"P1", "BP", "EU", "Implementation", some "NetApp", "X",
              100, "Q1", 2025, none⟩ : ProjectRecord),
            ⟨"P2", "BP", "EU", "Maintenance", some "NetApp", "Y",
              200, "Q1", 2025, none⟩],
        p.quarter = "Q1" ∨ p.quarter = "Q2" ∨
          p.quarter = "Q3" ∨ p.quarter = "Q4") ∧
    ((fetchDashboardData
        [⟨"P1", "BP", "EU", "Implementation", some "NetApp", "X",
            100, "Q1", 2025, none⟩,
         ⟨"P2", "BP", "EU", "Maintenance", some "NetApp", "Y",
            200, "Q1", 2025, none⟩]
        (some ⟨2025, 200, 0, 0, 0, 200⟩)).quarterlyData.map
          (fun e => e.income)).sum =
      (fetchDashboardData
        [⟨"P1", "BP", "EU", "Implementation", some "NetApp", "X",
            100, "Q1", 2025, none⟩,
         ⟨"P2", "BP", "EU", "Maintenance", some "NetApp", "Y",
            200, "Q1", 2025, none⟩]
        (some ⟨2025, 200, 0, 0, 0, 200⟩)).totalIncome ∧
    ((fetchDashboardData
        [⟨"P1", "BP", "EU", "Implementation", some "NetApp", "X",
            100, "Q1", 2025, none⟩,
         ⟨"P2", "BP", "EU", "Maintenance", some "NetApp", "Y",
            200, "Q1", 2025, none⟩]
        (some ⟨2025, 200, 0, 0, 0, 200⟩)).categoryData.map
          (fun e => e.2)).sum =
      (fetchDashboardData
        [⟨"P1", "BP", "EU", "Implementation", some "NetApp", "X",
            100, "Q1", 2025, none⟩,
         ⟨"P2", "BP", "EU", "Maintenance", some "NetApp", "Y",
            200, "Q1", 2025, none⟩]
        (some ⟨2025, 200, 0, 0, 0, 200⟩)).totalIncome :=
  ⟨by decide,
   (breakdowns_partition _ _ (by decide)).1,
   (breakdowns_partition _ _ (by decide)).2⟩

/-- C6: the aggregation is total with no error branch: the empty record
list yields zero total income, all-zero quarterly incomes, an empty
category breakdown and empty rankings; a null target record yields
`target = 0`, `achievement = 0`, all-zero quarterly targets and
`gap = 0 - totalIncome`. -/
theorem aggregation_total (ps : List ProjectRecord)
    (t : Option TargetRecord) :
    (fetchDashboardData [] t).totalIncome = 0 ∧
    (fetchDashboardData [] t).quarterlyData.map (fun e => e.income) =
      [0, 0, 0, 0] ∧
    (fetchDashboardData [] t).categoryData = [] ∧
    topPicsArray [] = [] ∧
    topProductsArray [] = [] ∧
    (fetchDashboardData ps none).target = 0 ∧
    (fetchDashboardData ps none).achievement = 0 ∧
    (fetchDashboardData ps none).quarterlyData.map (fun e => e.target) =
      [0, 0, 0, 0] ∧
    (fetchDashboardData ps none).gap =
      0 - (fetchDashboardData ps none).totalIncome := by
  refine ⟨rfl, by simp [fetchDashboardData, sumNett], rfl, rfl, rfl,
    rfl, ?_, by simp [fetchDashboardData, qTargetOf], rfl⟩
  simp [fetchDashboardData, yearlyTargetOf]

/-! ### Ranking lemmas -/

theorem aggFold_total (fs : List ProjectRecord) (b : Agg) :
    (fs.foldl (fun b r => Agg.mk (b.total + r.nettGp) (b.count + 1)) b).total =
      b.total + sumNett fs := by
  induction fs generalizing b with
  | nil => simp [sumNett]
  | cons r fs ih => simp [ih, sumNett_cons, add_assoc]

theorem aggFold_count (fs : List ProjectRecord) (b : Agg) :
    (fs.foldl (fun b r => Agg.mk (b.total + r.nettGp) (b.count + 1)) b).count =
      b.count + fs.length := by
  induction fs generalizing b with
  | nil => simp
  | cons r fs ih =>
    simp only [List.foldl_cons, ih, List.length_cons]
    omega

/-- The bucket stored in the grouped map at key `k` holds exactly the total
and count of the records whose key is `k`. -/
theorem groupAgg_getVD (key : ProjectRecord → String)
    (rs : List ProjectRecord) (k : String) :
    getVD ⟨0, 0⟩ k (groupAgg key rs) =
      ⟨sumNett (rs.filter (fun r => decide (key r = k))),
        (rs.filter (fun r => decide (key r = k))).length⟩ := by
  have h : getVD ⟨0, 0⟩ k (groupAgg key rs) =
      (rs.filter (fun r => decide (key r = k))).foldl
        (fun b r => Agg.mk (b.total + r.nettGp) (b.count + 1))
        (getVD ⟨0, 0⟩ k []) :=
    getVD_foldl key
      (fun r (b : Agg) => Agg.mk (b.total + r.nettGp) (b.count + 1))
      ⟨0, 0⟩ rs [] k
  rw [h]
  have hd : getVD (⟨0, 0⟩ : Agg) k [] = ⟨0, 0⟩ := rfl
  rw [hd]
  have ht := aggFold_total (rs.filter (fun r => decide (key r = k))) ⟨0, 0⟩
  have hc := aggFold_count (rs.filter (fun r => decide (key r = k))) ⟨0, 0⟩
  cases hfold : (rs.filter (fun r => decide (key r = k))).foldl
      (fun b r => Agg.mk (b.total + r.nettGp) (b.count + 1)) ⟨0, 0⟩
  rw [hfold] at ht hc
  simp at ht hc
  simp [ht, hc]

theorem nodup_keysOf_groupAgg (key : ProjectRecord → String)
    (rs : List ProjectRecord) : (keysOf (groupAgg key rs)).Nodup :=
  nodup_keysOf_foldl key
    (fun r (b : Agg) => Agg.mk (b.total + r.nettGp) (b.count + 1))
    ⟨0, 0⟩ rs (by simp [keysOf])

/-- Each entry of the grouped map records a key occurring in the input and
the exact total and count of the records carrying that key. -/
theorem groupAgg_mem_spec (key : ProjectRecord → String)
    {rs : List ProjectRecord} {k : String} {b : Agg}
    (hm : (k, b) ∈ groupAgg key rs) :
    b.total = sumNett (rs.filter (fun r => decide (key r = k))) ∧
    b.count = (rs.filter (fun r => decide (key r = k))).length ∧
    k ∈ rs.map key := by
  have hget : getV k (groupAgg key rs) = some b :=
    getV_of_mem (nodup_keysOf_groupAgg key rs) hm
  have hvd : getVD (⟨0, 0⟩ : Agg) k (groupAgg key rs) = b := by
    simp [getVD, hget]
  rw [groupAgg_getVD] at hvd
  have hkey : k ∈ keysOf (groupAgg key rs) := by
    exact List.mem_map.mpr ⟨(k, b), hm, rfl⟩
  have hmem := (mem_keysOf_foldl key
    (fun r (b : Agg) => Agg.mk (b.total + r.nettGp) (b.count + 1))
    ⟨0, 0⟩ rs [] k).mp hkey
  simp only [keysOf, List.map_nil, List.not_mem_nil, false_or] at hmem
  exact ⟨by rw [← hvd], by rw [← hvd], hmem⟩

/-- Every output entry of `rankBy` is the image of an entry of the grouped
map. -/
theorem mem_rankBy (key : ProjectRecord → String)
    {rs : List ProjectRecord} {e : Ranking} (he : e ∈ rankBy key rs) :
    ∃ kb ∈ groupAgg key rs, e = ⟨kb.1, kb.2.total, kb.2.count⟩ := by
  have h1 : e ∈ List.insertionSort rankGe
      ((groupAgg key rs).map (fun e => ⟨e.1, e.2.total, e.2.count⟩)) :=
    List.take_subset 5 _ he
  have h2 : e ∈ (groupAgg key rs).map
      (fun e => (⟨e.1, e.2.total, e.2.count⟩ : Ranking)) :=
    (List.mem_insertionSort rankGe).mp h1
  obtain ⟨kb, hkb, hke⟩ := List.mem_map.mp h2
  exact ⟨kb, hkb, hke.symm⟩

theorem length_groupAgg (key : ProjectRecord → String)
    (rs : List ProjectRecord) :
    (groupAgg key rs).length = distinctKeys key rs := by
  have hn := nodup_keysOf_groupAgg key rs
  have hf := toFinset_keysOf_foldl key
    (fun r (b : Agg) => Agg.mk (b.total + r.nettGp) (b.count + 1))
    ⟨0, 0⟩ rs []
  have hlen : (keysOf (groupAgg key rs)).length = (groupAgg key rs).length := by
    simp [keysOf]
  rw [← hlen, ← List.toFinset_card_of_nodup hn, distinctKeys]
  have hk : (keysOf (groupAgg key rs)).toFinset = (rs.map key).toFinset := by
    simpa [keysOf] using hf
  rw [hk]

theorem rankBy_length (key : ProjectRecord → String)
    (rs : List ProjectRecord) :
    (rankBy key rs).length = min 5 (distinctKeys key rs) := by
  simp [rankBy, List.length_take, List.length_insertionSort,
    length_groupAgg]

theorem rankBy_sorted (key : ProjectRecord → String)
    (rs : List ProjectRecord) :
    List.Chain' (fun a b => b.totalIncome ≤ a.totalIncome)
      (rankBy key rs) := by
  have hs : (List.insertionSort rankGe
      ((groupAgg key rs).map
        (fun e => (⟨e.1, e.2.total, e.2.count⟩ : Ranking)))).Pairwise
        rankGe :=
    List.sorted_insertionSort rankGe _
  have hp : (rankBy key rs).Pairwise rankGe :=
    List.Pairwise.sublist (List.take_sublist 5 _) hs
  exact List.Pairwise.chain' hp

/-- C3: for every record list, each ranking (by PIC and by product) has
output length `min(limit, number of distinct keys)` with `limit = 5`, and
is sorted descending by group `totalIncome`: any two adjacent output
entries `a, b` satisfy `a.totalIncome >= b.totalIncome`. -/
theorem ranking_length_and_order (rs : List ProjectRecord) :
    ((topPicsArray rs).length = min 5 (distinctKeys dashPicKey rs) ∧
      List.Chain' (fun a b => b.totalIncome ≤ a.totalIncome)
        (topPicsArray rs)) ∧
    ((topProductsArray rs).length = min 5 (distinctKeys prodKey rs) ∧
      List.Chain' (fun a b => b.totalIncome ≤ a.totalIncome)
        (topProductsArray rs)) ∧
    ((topPicsRankings rs).length = min 5 (distinctKeys rawPicKey rs) ∧
      List.Chain' (fun a b => b.totalIncome ≤ a.totalIncome)
        (topPicsRankings rs)) :=
  ⟨⟨rankBy_length dashPicKey rs, rankBy_sorted dashPicKey rs⟩,
   ⟨rankBy_length prodKey rs, rankBy_sorted prodKey rs⟩,
   ⟨rankBy_length rawPicKey rs, rankBy_sorted rawPicKey rs⟩⟩

theorem sum_map_one {α : Type} (l : List α) :
    (l.map (fun _ => (1 : ℕ))).sum = l.length := by
  induction l with
  | nil => rfl
  | cons a l ih =>
    simp only [List.map_cons, List.sum_cons, ih, List.length_cons]
    omega

theorem groupAgg_count_sum (key : ProjectRecord → String)
    (rs : List ProjectRecord) :
    ((groupAgg key rs).map (fun e => e.2.count)).sum = rs.length := by
  have h := sum_map_foldl (fun b : Agg => b.count) key
    (fun r (b : Agg) => Agg.mk (b.total + r.nettGp) (b.count + 1))
    (fun _ : ProjectRecord => (1 : ℕ)) ⟨0, 0⟩ rfl (fun _ _ => rfl) rs []
  simpa [groupAgg, sum_map_one] using h

theorem rankBy_count_spec (key : ProjectRecord → String)
    {rs : List ProjectRecord} {e : Ranking} (he : e ∈ rankBy key rs) :
    e.projectCount =
      (rs.filter (fun r => decide (key r = e.key))).length ∧
    1 ≤ e.projectCount := by
  obtain ⟨kb, hkb, rfl⟩ := mem_rankBy key he
  obtain ⟨_, hcount, hkmem⟩ := groupAgg_mem_spec key hkb
  refine ⟨hcount, ?_⟩
  obtain ⟨r, hr, hkey⟩ := List.mem_map.mp hkmem
  have hmem : r ∈ rs.filter (fun r => decide (key r = kb.1)) :=
    List.mem_filter.mpr ⟨hr, by simp [hkey]⟩
  have hpos : 0 < (rs.filter (fun r => decide (key r = kb.1))).length :=
    List.length_pos.mpr (List.ne_nil_of_mem hmem)
  show 1 ≤ kb.2.count
  rw [hcount]
  exact hpos

/-- C9: every ranking entry's `projectCount` equals the number of records
in its group and is at least 1 (no zero-count groups appear), and the sum
of `projectCount` over all groups before truncation to the top 5 equals
the length of the input record list — for both the Dashboard PIC ranking
and the TopPics ranking. -/
theorem ranking_project_counts (rs : List ProjectRecord) :
    (∀ e ∈ topPicsArray rs,
      e.projectCount =
        (rs.filter (fun r => decide (dashPicKey r = e.key))).length ∧
      1 ≤ e.projectCount) ∧
    ((groupAgg dashPicKey rs).map (fun e => e.2.count)).sum = rs.length ∧
    (∀ e ∈ topPicsRankings rs,
      e.projectCount =
        (rs.filter (fun r => decide (rawPicKey r = e.key))).length ∧
      1 ≤ e.projectCount) ∧
    ((groupAgg rawPicKey rs).map (fun e => e.2.count)).sum = rs.length :=
  ⟨fun _ he => rankBy_count_spec dashPicKey he,
   groupAgg_count_sum dashPicKey rs,
   fun _ he => rankBy_count_spec rawPicKey he,
   groupAgg_count_sum rawPicKey rs⟩

/-- Witness for C9 at a concrete input: a single record under PIC "X"
yields one ranking entry with `projectCount = 1`, and the count sum equals
the input length. -/
theorem ranking_project_counts_check :
    ((⟨"X", 100, 1⟩ : Ranking) ∈ topPicsArray
        [⟨"P1", "BP", "EU", "Implementation", some "NetApp", "X",
          100, "Q1", 2025, none⟩]) ∧
    ((⟨"X", 100, 1⟩ : Ranking).projectCount =
      ([(⟨"P1", "BP", "EU", "Implementation", some "NetApp", "X",
          100, "Q1", 2025, none⟩ : ProjectRecord)].filter
        (fun r => decide (dashPicKey r = (⟨"X", 100, 1⟩ : Ranking).key))).length ∧
      1 ≤ (⟨"X", 100, 1⟩ : Ranking).projectCount) ∧
    ((groupAgg dashPicKey
        [⟨"P1", "BP", "EU", "Implementation", some "NetApp", "X",
          100, "Q1", 2025, none⟩]).map (fun e => e.2.count)).sum =
      [(⟨"P1", "BP", "EU", "Implementation", some "NetApp", "X",
          100, "Q1", 2025, none⟩ : ProjectRecord)].length :=
  ⟨by decide,
   (ranking_project_counts _).1 _ (by decide),
   (ranking_project_counts _).2.1⟩

/-- C5 counterexample: in `TopPics.fetchRankings` the grouping key is the
raw `project.pic` with no `|| 'N/A'` normalisation, so a record with an
empty-string `pic` lands in a bucket keyed `""`, not `"N/A"`. -/
theorem na_sentinel_cex :
    (topPicsRankings
        [⟨"P9", "BP", "EU", "LSC", some "", "", 50, "Q1", 2025,
          none⟩]).map (fun e => e.key) = [""] ∧
    (topPicsRankings
        [⟨"P9", "BP", "EU", "LSC", some "", "", 50, "Q1", 2025,
          none⟩]).map (fun e => e.key) ≠ ["N/A"] := by
  constructor
  · rfl
  · decide

/-- C5 (amended): in the Dashboard PIC and product rankings and in the
TopProducts product ranking, a missing or empty grouping key is normalised
to the sentinel `"N/A"`; in particular two records with `product = ""` and
`product = null` land in the same product bucket.  (The TopPics PIC
ranking, by contrast, groups by the raw `pic` value — see the
counterexample.) -/
theorem na_sentinel_normalization (a b : ProjectRecord)
    (rs : List ProjectRecord) :
    (a.pic = "" → dashPicKey a = "N/A") ∧
    ((a.product = none ∨ a.product = some "") → prodKey a = "N/A") ∧
    (a.product = some "" → b.product = none → prodKey a = prodKey b) ∧
    (a.product = some "" → b.product = none →
      (getVD ⟨0, 0⟩ "N/A" (groupAgg prodKey (a :: b :: rs))).total =
        a.nettGp + b.nettGp +
          (getVD ⟨0, 0⟩ "N/A" (groupAgg prodKey rs)).total) := by
  refine ⟨fun h => by simp [dashPicKey, h], fun h => ?_,
    fun ha hb => ?_, fun ha hb => ?_⟩
  · rcases h with h | h <;> simp [prodKey, h]
  · simp [prodKey, ha, hb]
  · have hka : prodKey a = "N/A" := by simp [prodKey, ha]
    have hkb : prodKey b = "N/A" := by simp [prodKey, hb]
    rw [groupAgg_getVD, groupAgg_getVD]
    simp only [List.filter_cons, hka, hkb]
    simp [sumNett_cons, add_assoc]

/-- Witness for C5 (amended) at a concrete input: a record with
`product = ""` and a record with `product = null` both normalise to
`"N/A"` and accumulate into the same product bucket. -/
theorem na_sentinel_normalization_check :
    dashPicKey
      ⟨"P9", "BP", "EU", "LSC", some "", "", 50, "Q1", 2025, none⟩ =
      "N/A" ∧
    prodKey
      ⟨"P9", "BP", "EU", "LSC", some "", "", 50, "Q1", 2025, none⟩ =
      "N/A" ∧
    prodKey
      ⟨"P9", "BP", "EU", "LSC", some "", "", 50, "Q1", 2025, none⟩ =
      prodKey
        ⟨"P8", "BP", "EU", "LSC", none, "Z", 70, "Q2", 2025, none⟩ ∧
    (getVD ⟨0, 0⟩ "N/A" (groupAgg prodKey
        [⟨"P9", "BP", "EU", "LSC", some "", "", 50, "Q1", 2025, none⟩,
         ⟨"P8", "BP", "EU", "LSC", none, "Z", 70, "Q2", 2025,
           none⟩])).total =
      (50 : Int) + 70 + (getVD ⟨0, 0⟩ "N/A" (groupAgg prodKey [])).total :=
  ⟨(na_sentinel_normalization _
      ⟨"P8", "BP", "EU", "LSC", none, "Z", 70, "Q2", 2025, none⟩ []).1
      (by decide),
   (na_sentinel_normalization _
      ⟨"P8", "BP", "EU", "LSC", none, "Z", 70, "Q2", 2025, none⟩ []).2.1
      (Or.inr (by decide)),
   (na_sentinel_normalization _ _ []).2.2.1 (by decide) (by decide),
   (na_sentinel_normalization _ _ []).2.2.2 (by decide) (by decide)⟩

/-! ### Product-ranking breakdown lemmas -/

theorem prodFold_total (fs : List ProjectRecord) (b : ProdBucket) :
    (fs.foldl (fun b r => ProdBucket.mk (b.total + r.nettGp) (b.count + 1)
      (bumpVal r.pic r.nettGp b.pics)) b).total = b.total + sumNett fs := by
  induction fs generalizing b with
  | nil => simp [sumNett]
  | cons r fs ih => simp [ih, sumNett_cons, add_assoc]

theorem prodFold_count (fs : List ProjectRecord) (b : ProdBucket) :
    (fs.foldl (fun b r => ProdBucket.mk (b.total + r.nettGp) (b.count + 1)
      (bumpVal r.pic r.nettGp b.pics)) b).count = b.count + fs.length := by
  induction fs generalizing b with
  | nil => simp
  | cons r fs ih =>
    simp only [List.foldl_cons, ih, List.length_cons]
    omega

theorem prodFold_pics (fs : List ProjectRecord) (b : ProdBucket) :
    (fs.foldl (fun b r => ProdBucket.mk (b.total + r.nettGp) (b.count + 1)
      (bumpVal r.pic r.nettGp b.pics)) b).pics =
      fs.foldl (fun ps r => bumpVal r.pic r.nettGp ps) b.pics := by
  induction fs generalizing b with
  | nil => rfl
  | cons r fs ih => simp [ih]

/-- The product bucket at key `k` holds the total, count and per-PIC
grouping of exactly the records whose product key is `k`. -/
theorem groupProd_getVD (rs : List ProjectRecord) (k : String) :
    getVD ⟨0, 0, []⟩ k (groupProd rs) =
      ⟨sumNett (rs.filter (fun r => decide (prodKey r = k))),
        (rs.filter (fun r => decide (prodKey r = k))).length,
        picGroup (rs.filter (fun r => decide (prodKey r = k)))⟩ := by
  have h : getVD ⟨0, 0, []⟩ k (groupProd rs) =
      (rs.filter (fun r => decide (prodKey r = k))).foldl
        (fun b r => ProdBucket.mk (b.total + r.nettGp) (b.count + 1)
          (bumpVal r.pic r.nettGp b.pics))
        (getVD ⟨0, 0, []⟩ k []) :=
    getVD_foldl prodKey
      (fun r (b : ProdBucket) => ProdBucket.mk (b.total + r.nettGp)
        (b.count + 1) (bumpVal r.pic r.nettGp b.pics))
      ⟨0, 0, []⟩ rs [] k
  rw [h]
  have hd : getVD (⟨0, 0, []⟩ : ProdBucket) k [] = ⟨0, 0, []⟩ := rfl
  rw [hd]
  have ht := prodFold_total (rs.filter (fun r => decide (prodKey r = k)))
    ⟨0, 0, []⟩
  have hc := prodFold_count (rs.filter (fun r => decide (prodKey r = k)))
    ⟨0, 0, []⟩
  have hp := prodFold_pics (rs.filter (fun r => decide (prodKey r = k)))
    ⟨0, 0, []⟩
  cases hfold : (rs.filter (fun r => decide (prodKey r = k))).foldl
      (fun b r => ProdBucket.mk (b.total + r.nettGp) (b.count + 1)
        (bumpVal r.pic r.nettGp b.pics)) ⟨0, 0, []⟩
  rw [hfold] at ht hc hp
  simp only at ht hc hp
  simp [ht, hc, hp, picGroup]

theorem nodup_keysOf_groupProd (rs : List ProjectRecord) :
    (keysOf (groupProd rs)).Nodup :=
  nodup_keysOf_foldl prodKey
    (fun r (b : ProdBucket) => ProdBucket.mk (b.total + r.nettGp)
      (b.count + 1) (bumpVal r.pic r.nettGp b.pics))
    ⟨0, 0, []⟩ rs (by simp [keysOf])

/-- The values of the per-PIC grouping of a record list sum to its total
income. -/
theorem picGroup_sum (fs : List ProjectRecord) :
    ((picGroup fs).map (fun p => p.2)).sum = sumNett fs := by
  have h := sum_map_foldl (fun v : Int => v)
    (fun r : ProjectRecord => r.pic) (fun r w => w + r.nettGp)
    (fun r : ProjectRecord => r.nettGp) 0 rfl (fun _ _ => rfl) fs []
  simpa [picGroup, bumpVal, sumNett] using h

/-- Every output entry of the product ranking is the image of an entry of
the grouped product map. -/
theorem mem_topProductsRankings {rs : List ProjectRecord}
    {e : ProductRanking} (he : e ∈ topProductsRankings rs) :
    ∃ kb ∈ groupProd rs,
      e = ⟨kb.1, kb.2.total, kb.2.count,
        List.insertionSort picGe
          (kb.2.pics.map (fun p => PicEntry.mk p.1 p.2))⟩ := by
  have h1 := List.take_subset 5 _ he
  have h2 := (List.mem_insertionSort prodGe).mp h1
  obtain ⟨kb, hkb, hke⟩ := List.mem_map.mp h2
  exact ⟨kb, hkb, hke.symm⟩

/-- C4: for every record list, in the product ranking each top-level
entry's nested per-PIC breakdown is obtained by grouping that product's
records by `pic` and summing `nettGp` per PIC, the breakdown entries sum
to the parent product's `totalIncome`, and the breakdown is sorted
descending by that per-PIC sum. -/
theorem product_ranking_breakdown (rs : List ProjectRecord)
    (e : ProductRanking) (he : e ∈ topProductsRankings rs) :
    e.pics = List.insertionSort picGe
      ((picGroup (rs.filter (fun r => decide (prodKey r = e.product)))).map
        (fun p => PicEntry.mk p.1 p.2)) ∧
    (e.pics.map (fun p => p.income)).sum = e.totalIncome ∧
    List.Chain' (fun a b => b.income ≤ a.income) e.pics := by
  obtain ⟨kb, hkb, rfl⟩ := mem_topProductsRankings he
  have hget : getV kb.1 (groupProd rs) = some kb.2 :=
    getV_of_mem (nodup_keysOf_groupProd rs) hkb
  have hvd : getVD (⟨0, 0, []⟩ : ProdBucket) kb.1 (groupProd rs) = kb.2 := by
    simp [getVD, hget]
  rw [groupProd_getVD] at hvd
  refine ⟨?_, ?_, ?_⟩
  · simp only
    rw [← hvd]
  · simp only
    have hperm :=
      List.perm_insertionSort picGe
        (kb.2.pics.map (fun p => PicEntry.mk p.1 p.2))
    have hsum := (hperm.map (fun p => p.income)).sum_eq
    rw [hsum, ← hvd]
    simp only [List.map_map]
    have : ((picGroup (rs.filter (fun r => decide (prodKey r = kb.1)))).map
        ((fun p => p.income) ∘ (fun p => PicEntry.mk p.1 p.2))).sum =
        ((picGroup (rs.filter (fun r => decide (prodKey r = kb.1)))).map
          (fun p => p.2)).sum := rfl
    rw [this, picGroup_sum]
  · exact List.Pairwise.chain' (List.sorted_insertionSort picGe _)

/-- Witness for C4: two records on product "NetApp" by PICs X (100) and
Y (200) produce the top entry whose breakdown is `[Y: 200, X: 100]`,
summing to 300. -/
theorem product_ranking_breakdown_check :
    ((⟨"NetApp", 300, 2, [⟨"Y", 200⟩, ⟨"X", 100⟩]⟩ : ProductRanking) ∈
      topProductsRankings
        [⟨"P1", "BP", "EU", "Implementation", some "NetApp", "X",
            100, "Q1", 2025, none⟩,
         ⟨"P2", "BP", "EU", "Maintenance", some "NetApp", "Y",
            200, "Q1", 2025, none⟩]) ∧
    (((⟨"NetApp", 300, 2, [⟨"Y", 200⟩, ⟨"X", 100⟩]⟩ :
        ProductRanking)).pics.map (fun p => p.income)).sum =
      (⟨"NetApp", 300, 2, [⟨"Y", 200⟩, ⟨"X", 100⟩]⟩ :
        ProductRanking).totalIncome ∧
    List.Chain' (fun a b => b.income ≤ a.income)
      (⟨"NetApp", 300, 2, [⟨"Y", 200⟩, ⟨"X", 100⟩]⟩ :
        ProductRanking).pics :=
  ⟨by decide,
   (product_ranking_breakdown
      [⟨"P1", "BP", "EU", "Implementation", some "NetApp", "X",
          100, "Q1", 2025, none⟩,
       ⟨"P2", "BP", "EU", "Maintenance", some "NetApp", "Y",
          200, "Q1", 2025, none⟩] _ (by decide)).2.1,
   (product_ranking_breakdown
      [⟨"P1", "BP", "EU", "Implementation", some "NetApp", "X",
          100, "Q1", 2025, none⟩,
       ⟨"P2", "BP", "EU", "Maintenance", some "NetApp", "Y",
          200, "Q1", 2025, none⟩] _ (by decide)).2.2⟩

/-- C10: for every project list and every filter selection, the report
filter returns exactly the projects whose year equals the selected year,
whose quarter equals the selected quarter unless it is "all", and whose
category equals the selected category unless it is "all", preserving input
order; and the displayed total income equals the sum of `nett_gp` over
that filtered list. -/
theorem reports_filter_spec (ps : List ProjectRecord) (y q c : String) :
    applyFilters ps y q c = ps.filter (fun p =>
      decide (toString p.year = y) &&
      (decide (q = "all") || decide (p.quarter = q)) &&
      (decide (c = "all") || decide (p.category = c))) ∧
    List.Sublist (applyFilters ps y q c) ps ∧
    reportsTotalIncome (applyFilters ps y q c) =
      sumNett (ps.filter (fun p =>
        decide (toString p.year = y) &&
        (decide (q = "all") || decide (p.quarter = q)) &&
        (decide (c = "all") || decide (p.category = c)))) := by
  have hmain : applyFilters ps y q c = ps.filter (fun p =>
      decide (toString p.year = y) &&
      (decide (q = "all") || decide (p.quarter = q)) &&
      (decide (c = "all") || decide (p.category = c))) := by
    simp only [applyFilters]
    by_cases hq : q = "all" <;> by_cases hc : c = "all" <;>
      simp only [hq, hc, if_pos, if_neg, ne_eq, not_true_eq_false,
        not_false_eq_true, if_true, if_false, ite_not, List.filter_filter]
    · apply List.filter_congr
      intro p _
      simp
    · apply List.filter_congr
      intro p _
      by_cases h1 : toString p.year = y <;>
        by_cases h3 : p.category = c <;> simp [h1, h3, hc]
    · apply List.filter_congr
      intro p _
      by_cases h1 : toString p.year = y <;>
        by_cases h2 : p.quarter = q <;> simp [h1, h2, hq]
    · apply List.filter_congr
      intro p _
      by_cases h1 : toString p.year = y <;>
        by_cases h2 : p.quarter = q <;>
        by_cases h3 : p.category = c <;> simp [h1, h2, h3, hq, hc]
  refine ⟨hmain, ?_, ?_⟩
  · rw [hmain]
    exact List.filter_sublist ps
  · rw [reportsTotalIncome, hmain]

/-! ### Bulk-import lemmas -/

theorem collectRows_fst (rows : List RawRow) (i : Nat) :
    (collectRows i rows).1 =
      ((List.enumFrom i rows).filter
        (fun p => !(rowErrors p.2).isEmpty)).map
        (fun p => rowErrorMsg p.1 p.2) := by
  induction rows generalizing i with
  | nil => rfl
  | cons r rest ih =>
    by_cases h : (rowErrors r).isEmpty
    · simp [collectRows, h, List.enumFrom, ih]
    · simp [collectRows, h, List.enumFrom, ih]

theorem collectRows_snd (rows : List RawRow) (i : Nat) :
    (collectRows i rows).2 =
      rows.filter (fun r => (rowErrors r).isEmpty) := by
  induction rows generalizing i with
  | nil => rfl
  | cons r rest ih =>
    by_cases h : (rowErrors r).isEmpty
    · simp [collectRows, h, ih]
    · simp [collectRows, h, ih]

theorem enumFrom_mem_of_mem {α : Type} {r : α} {l : List α} (i : Nat)
    (h : r ∈ l) : ∃ j, (j, r) ∈ List.enumFrom i l := by
  induction l generalizing i with
  | nil => cases h
  | cons a l ih =>
    rcases List.mem_cons.mp h with rfl | h
    · exact ⟨i, List.mem_cons_self _ _⟩
    · obtain ⟨j, hj⟩ := ih (i + 1) h
      exact ⟨j, List.mem_cons_of_mem _ hj⟩

theorem mem_of_enumFrom_mem {α : Type} {p : Nat × α} {l : List α} {i : Nat}
    (h : p ∈ List.enumFrom i l) : p.2 ∈ l := by
  induction l generalizing i with
  | nil => cases h
  | cons a l ih =>
    rcases List.mem_cons.mp h with rfl | h
    · exact List.mem_cons_self _ _
    · exact List.mem_cons_of_mem _ (ih h)

/-- C7: bulk import is all-or-nothing: every row is validated
independently; if at least one row is invalid the parse result is failure
carrying one error message per invalid row (each labelled with its sheet
index offset by the fixed header-row count, i.e. `index + 2`), and no rows
are imported; if zero rows are invalid and at least one valid row exists,
the result is success carrying every row. -/
theorem bulk_import_all_or_nothing (rows : List RawRow) :
    ((∃ r ∈ rows, rowErrors r ≠ []) →
      parseSheetRows rows =
        { success := false, data := none
          errors := some (((List.enumFrom 0 rows).filter
            (fun p => !(rowErrors p.2).isEmpty)).map
            (fun p => rowErrorMsg p.1 p.2)) }) ∧
    ((∀ r ∈ rows, rowErrors r = []) → rows ≠ [] →
      parseSheetRows rows =
        { success := true, data := some rows, errors := none }) := by
  constructor
  · rintro ⟨r, hr, hinv⟩
    have hlen : 0 < (collectRows 0 rows).1.length := by
      rw [collectRows_fst]
      simp only [List.length_map]
      obtain ⟨j, hj⟩ := enumFrom_mem_of_mem 0 hr
      have hmemf : (j, r) ∈ (List.enumFrom 0 rows).filter
          (fun p => !(rowErrors p.2).isEmpty) :=
        List.mem_filter.mpr ⟨hj, by
          simp only [Bool.not_eq_eq_eq_not, Bool.not_true,
            List.isEmpty_eq_false]
          exact hinv⟩
      exact List.length_pos.mpr (List.ne_nil_of_mem hmemf)
    simp only [parseSheetRows]
    rw [if_pos hlen, collectRows_fst]
  · intro hall hne
    have hfst : (collectRows 0 rows).1 = [] := by
      rw [collectRows_fst]
      apply List.map_eq_nil_iff.mpr
      apply List.filter_eq_nil_iff.mpr
      intro p hp
      have hmem : p.2 ∈ rows := mem_of_enumFrom_mem hp
      simp [List.isEmpty_iff, hall p.2 hmem]
    have hsnd : (collectRows 0 rows).2 = rows := by
      rw [collectRows_snd]
      apply List.filter_eq_self.mpr
      intro r hr
      simp [List.isEmpty_iff, hall r hr]
    simp only [parseSheetRows]
    rw [hfst, hsnd]
    simp [List.length_eq_zero, hne]

/-- Witness for C7: a batch with one invalid row (blank PID in row index 1,
reported as "Row 3") is rejected whole; a batch of one valid row succeeds
carrying it. -/
theorem bulk_import_all_or_nothing_check :
    parseSheetRows
        [⟨"P250001", "Example Corp", "ABC Company", "Implementation",
            "NetApp", "John Doe", 50000000, "Q1", 2025, ""⟩,
         ⟨"", "Example Corp", "ABC Company", "Implementation",
            "NetApp", "John Doe", 50000000, "Q1", 2025, ""⟩] =
      { success := false, data := none
        errors := some (((List.enumFrom 0
            [(⟨"P250001", "Example Corp", "ABC Company", "Implementation",
                "NetApp", "John Doe", 50000000, "Q1", 2025, ""⟩ : RawRow),
             ⟨"", "Example Corp", "ABC Company", "Implementation",
                "NetApp", "John Doe", 50000000, "Q1", 2025, ""⟩]).filter
            (fun p => !(rowErrors p.2).isEmpty)).map
            (fun p => rowErrorMsg p.1 p.2)) } ∧
    parseSheetRows
        [⟨"P250001", "Example Corp", "ABC Company", "Implementation",
            "NetApp", "John Doe", 50000000, "Q1", 2025, ""⟩] =
      { success := true
        data := some
          [⟨"P250001", "Example Corp", "ABC Company", "Implementation",
              "NetApp", "John Doe", 50000000, "Q1", 2025, ""⟩]
        errors := none } :=
  ⟨(bulk_import_all_or_nothing _).1
      ⟨⟨"", "Example Corp", "ABC Company", "Implementation",
          "NetApp", "John Doe", 50000000, "Q1", 2025, ""⟩,
        by decide, by decide⟩,
   (bulk_import_all_or_nothing _).2 (by decide) (by decide)⟩

/-! ### `pid` auto-assignment lemmas -/

/-- `LPAD` with a non-empty fill always returns exactly `n` characters. -/
theorem lpad_length (s : String) (n : Nat) (c : Char) :
    (lpad s n c).length = n := by
  rw [lpad]
  by_cases h : n ≤ s.length
  · rw [if_pos h]
    rw [List.length_asString, List.length_take]
    have : s.toList.length = s.length := String.length_data s
    omega
  · rw [if_neg h]
    rw [String.length_append, List.length_asString, List.length_replicate]
    omega

/-- C8: when a project is inserted with a null or empty `pid`, the store
auto-assigns a `pid` of the form 'P' followed by the 2-digit current year
followed by a 4-digit zero-padded sequence number (one more than the count
of projects created in the current year); an insert that supplies a
non-empty `pid` keeps it unchanged. -/
theorem pid_auto_assignment (year : Nat) (store : List StoredProject)
    (newPid : Option String) :
    ((newPid = none ∨ newPid = some "") →
      set_project_pid year store newPid =
        "P" ++ lpad (toString (year % 100)) 2 '0' ++
          lpad (toString ((store.filter
            (fun p => decide (p.createdYear = year))).length + 1)) 4 '0' ∧
      (set_project_pid year store newPid).length = 7) ∧
    (∀ s, s ≠ "" → set_project_pid year store (some s) = s) := by
  constructor
  · intro h
    have hgen : set_project_pid year store newPid =
        generate_pid year store := by
      rcases h with rfl | rfl
      · rfl
      · rfl
    constructor
    · rw [hgen]
      rfl
    · rw [hgen, generate_pid]
      simp only [String.length_append, lpad_length]
      rfl
  · intro s hs
    simp [set_project_pid, hs]

/-- Witness for C8: with six projects already created in 2025, a blank-pid
insert is assigned "P250007" (the spec's own example), and a supplied pid
is kept. -/
theorem pid_auto_assignment_check :
    set_project_pid 2025
        [⟨2025⟩, ⟨2025⟩, ⟨2025⟩, ⟨2025⟩, ⟨2025⟩, ⟨2025⟩] none =
      "P" ++ lpad (toString (2025 % 100)) 2 '0' ++
        lpad (toString ((([⟨2025⟩, ⟨2025⟩, ⟨2025⟩, ⟨2025⟩, ⟨2025⟩,
            ⟨2025⟩] : List StoredProject).filter
          (fun p => decide (p.createdYear = 2025))).length + 1)) 4 '0' ∧
    (set_project_pid 2025
        [⟨2025⟩, ⟨2025⟩, ⟨2025⟩, ⟨2025⟩, ⟨2025⟩, ⟨2025⟩] none).length = 7 ∧
    set_project_pid 2025
        [⟨2025⟩, ⟨2025⟩, ⟨2025⟩, ⟨2025⟩, ⟨2025⟩, ⟨2025⟩] none =
      "P250007" ∧
    set_project_pid 2025
        [⟨2025⟩, ⟨2025⟩, ⟨2025⟩, ⟨2025⟩, ⟨2025⟩, ⟨2025⟩]
        (some "P190042") = "P190042" :=
  ⟨((pid_auto_assignment 2025
      [⟨2025⟩, ⟨2025⟩, ⟨2025⟩, ⟨2025⟩, ⟨2025⟩, ⟨2025⟩] none).1
      (Or.inl rfl)).1,
   ((pid_auto_assignment 2025
      [⟨2025⟩, ⟨2025⟩, ⟨2025⟩, ⟨2025⟩, ⟨2025⟩, ⟨2025⟩] none).1
      (Or.inl rfl)).2,
   by decide,
   (pid_auto_assignment 2025
      [⟨2025⟩, ⟨2025⟩, ⟨2025⟩, ⟨2025⟩, ⟨2025⟩, ⟨2025⟩]
      (some "P190042")).2 "P190042" (by decide)⟩
